import Mathlib

/-!
Verification of the IPL player-performance ETL pipeline (`main.py`).

The pipeline is embedded shallowly:

* a pandas cell is `Cell` (missing / string / numeric, rationals standing
  for Python floats);
* a DataFrame row with the fixed eight-column schema
  `Player, Role, Team, Matches, Runs, Bat_SR, Wickets, Econ` is `RawRecord`;
* a DataFrame is a `List RawRecord` (order = row order);
* each pipeline function of `main.py` is translated to a Lean function of
  the same name, with pandas primitives (`fillna`, `to_numeric`,
  `drop_duplicates`, `nlargest`, `Series.mean`, `replace`/`dropna`)
  modelled by their documented semantics; `NaN` results of `mean` are
  modelled as `none`.
-/

/-- One cell of the table: missing (NaN), a string, or a number. -/
inductive Cell where
  | missing : Cell
  | str : String → Cell
  | num : ℚ → Cell
  deriving DecidableEq, Repr

/-- One row of the table, with the fixed schema
`Player, Role, Team, Matches, Runs, Bat_SR, Wickets, Econ`
(the `Matches` column is called `matchesPlayed` here because `matches` is
reserved syntax in Lean). -/
structure RawRecord where
  player : Cell
  role : Cell
  team : Cell
  matchesPlayed : Cell
  runs : Cell
  bat_sr : Cell
  wickets : Cell
  econ : Cell
  deriving DecidableEq, Repr

/-- `fillna` on a single cell: a missing value is replaced by the default,
anything else is kept. -/
def fillCell (default : Cell) (c : Cell) : Cell :=
  match c with
  | Cell.missing => default
  | c => c

/-- Row-wise view of
`df.fillna({'Player':'Unknown', ..., 'Matches':0, ..., 'Econ':0})`:
the three text fields default to `"Unknown"`, the five numeric fields to `0`. -/
def fillnaRecord (r : RawRecord) : RawRecord where
  player := fillCell (Cell.str "Unknown") r.player
  role := fillCell (Cell.str "Unknown") r.role
  team := fillCell (Cell.str "Unknown") r.team
  matchesPlayed := fillCell (Cell.num 0) r.matchesPlayed
  runs := fillCell (Cell.num 0) r.runs
  bat_sr := fillCell (Cell.num 0) r.bat_sr
  wickets := fillCell (Cell.num 0) r.wickets
  econ := fillCell (Cell.num 0) r.econ

/-- Parse a decimal numeral string (optional sign, digits, optional
fractional part), the model of what `pd.to_numeric` accepts. -/
def parseDigits : List Char → Option ℚ → Option ℚ
  | [], acc => acc
  | c :: cs, acc =>
    if c.isDigit then
      parseDigits cs (some ((acc.getD 0) * 10 + ((c.toNat - '0'.toNat : ℕ) : ℚ)))
    else none

/-- Parse the fractional part: digits after the decimal point, scaled. -/
def parseFrac : List Char → ℚ → ℚ → Option ℚ
  | [], _, acc => some acc
  | c :: cs, scale, acc =>
    if c.isDigit then
      parseFrac cs (scale / 10) (acc + scale * ((c.toNat - '0'.toNat : ℕ) : ℚ))
    else none

/-- Split at the first decimal point and parse both sides. -/
def parseUnsigned (cs : List Char) : Option ℚ :=
  match cs.splitOn '.' with
  | [intPart] =>
    if intPart.isEmpty then none else parseDigits intPart none
  | [intPart, fracPart] =>
    if intPart.isEmpty ∧ fracPart.isEmpty then none
    else
      match parseDigits intPart (some 0), parseFrac fracPart (1 / 10) 0 with
      | some i, some f => some (i + f)
      | _, _ => none
  | _ => none

/-- Model of `pd.to_numeric` string parsing: optional sign, then a decimal
numeral; anything else fails. -/
def parseNum (s : String) : Option ℚ :=
  match s.toList with
  | '-' :: rest => (parseUnsigned rest).map (fun q => -q)
  | '+' :: rest => parseUnsigned rest
  | cs => parseUnsigned cs

/-- `pd.to_numeric(·, errors='coerce')` on one cell: numbers pass through,
parseable strings become numbers, everything else becomes NaN (missing). -/
def toNumericCell (c : Cell) : Cell :=
  match c with
  | Cell.num q => Cell.num q
  | Cell.str s =>
    match parseNum s with
    | some q => Cell.num q
    | none => Cell.missing
  | Cell.missing => Cell.missing

/-- One numeric-column cleaning step of the loop body
`df[col] = pd.to_numeric(df[col], errors='coerce').fillna(0)`. -/
def coerceCell (c : Cell) : Cell :=
  fillCell (Cell.num 0) (toNumericCell c)

/-- Row-wise view of the loop
`for col in ['Runs', 'Wickets', 'Bat_SR', 'Econ']: df[col] = ...`:
only those four columns are coerced; `Matches` is untouched here. -/
def coerceNumericRecord (r : RawRecord) : RawRecord :=
  { r with
    runs := coerceCell r.runs
    wickets := coerceCell r.wickets
    bat_sr := coerceCell r.bat_sr
    econ := coerceCell r.econ }

/-- The per-row normalization performed by `clean_ipl_data` before
deduplication: `fillna` then numeric coercion of the four columns. -/
def cleanRecord (r : RawRecord) : RawRecord :=
  coerceNumericRecord (fillnaRecord r)

/-- The deduplication identity used by
`df.drop_duplicates(subset=['Player', 'Team'])`. -/
def recordKey (r : RawRecord) : Cell × Cell :=
  (r.player, r.team)

/-- `drop_duplicates(subset=['Player','Team'])` with the default
`keep='first'`: walk the rows in order, keeping a row iff its key has not
been seen before. -/
def dropDupGo (seen : List (Cell × Cell)) : List RawRecord → List RawRecord
  | [] => []
  | r :: rs =>
    if recordKey r ∈ seen then dropDupGo seen rs
    else r :: dropDupGo (recordKey r :: seen) rs

/-- `df.drop_duplicates(subset=['Player', 'Team'])`. -/
def dropDuplicates (l : List RawRecord) : List RawRecord :=
  dropDupGo [] l

/-- `clean_ipl_data` of `main.py`: fill missing values, coerce the four
numeric columns `Runs, Wickets, Bat_SR, Econ`, then drop duplicate rows by
`(Player, Team)` keeping the first occurrence. -/
def clean_ipl_data (df : List RawRecord) : List RawRecord :=
  dropDuplicates (df.map cleanRecord)

/-! ### Analyzer (`analyze_ipl`) -/

/-- Numeric value of a cell (cleaned numeric columns hold only `num` cells;
other cells read as `0`, matching how a cleaned frame is consumed). -/
def numVal (c : Cell) : ℚ :=
  match c with
  | Cell.num q => q
  | _ => 0

/-- Insert an element into a list that is sorted descending by the key `k`,
before the first element of key ≤ its own.  Equal keys keep the incoming
(originally earlier) element first, so the resulting sort is stable. -/
def insertDescBy {α : Type} (k : α → ℚ) (a : α) : List α → List α
  | [] => [a]
  | x :: xs => if k x ≤ k a then a :: x :: xs else x :: insertDescBy k a xs

/-- Stable descending insertion sort by the key `k`: the order produced by
`DataFrame.nlargest` with `keep='first'` (descending by the column, ties in
original row order). -/
def sortDescBy {α : Type} (k : α → ℚ) : List α → List α
  | [] => []
  | x :: xs => insertDescBy k x (sortDescBy k xs)

/-- `df.nlargest(10, col)`: the first 10 rows of the stable descending
order by the column. -/
def nlargest10 (k : RawRecord → ℚ) (df : List RawRecord) : List RawRecord :=
  (sortDescBy k df).take 10

/-- A row of a top-N view after the column projection
`[['Player', 'Team', metric]]`: the three retained cells. -/
def projectView (metric : RawRecord → Cell) (rows : List RawRecord) :
    List (Cell × Cell × Cell) :=
  rows.map (fun r => (r.player, r.team, metric r))

/-- `df.nlargest(10, 'Runs')[['Player', 'Team', 'Runs']]`. -/
def top_runs (df : List RawRecord) : List (Cell × Cell × Cell) :=
  projectView (fun r => r.runs) (nlargest10 (fun r => numVal r.runs) df)

/-- `df.nlargest(10, 'Wickets')[['Player', 'Team', 'Wickets']]`. -/
def top_wickets (df : List RawRecord) : List (Cell × Cell × Cell) :=
  projectView (fun r => r.wickets) (nlargest10 (fun r => numVal r.wickets) df)

/-- `Series.mean()`: `NaN` (here `none`) on an empty series, otherwise the
arithmetic mean. -/
def seriesMean (l : List ℚ) : Option ℚ :=
  if l = [] then none else some (l.sum / l.length)

/-- `df['Bat_SR'].mean()`. -/
def avg_batting_sr (df : List RawRecord) : Option ℚ :=
  seriesMean (df.map (fun r => numVal r.bat_sr))

/-- `df['Econ'].replace(0, pd.NA)`: each exactly-zero entry becomes NA. -/
def econReplaceZero (df : List RawRecord) : List (Option ℚ) :=
  df.map (fun r => if numVal r.econ = 0 then none else some (numVal r.econ))

/-- `Series.dropna()`: drop the NA entries. -/
def seriesDropna (l : List (Option ℚ)) : List ℚ :=
  l.filterMap id

/-- `df['Econ'].replace(0, pd.NA).dropna().astype(float).mean()`. -/
def avg_bowling_econ (df : List RawRecord) : Option ℚ :=
  seriesMean (seriesDropna (econReplaceZero df))

/-- `analyze_ipl` of `main.py`: the two top-10 views and the summary pair
`(Avg_Batting_SR, Avg_Bowling_Econ)`. -/
def analyze_ipl (df : List RawRecord) :
    List (Cell × Cell × Cell) × List (Cell × Cell × Cell) ×
      (Option ℚ × Option ℚ) :=
  (top_runs df, top_wickets df, (avg_batting_sr df, avg_bowling_econ df))

/-! ### Loader (`load_ipl_data`) -/

/-- A file on disk, characterized by what each of the two readers returns on
it: `asExcel` is the outcome of `pd.read_excel`, `asCsv` of `pd.read_csv`;
`Except.error ()` stands for a parse failure on malformed content. -/
structure FileVal where
  asExcel : Except Unit (List RawRecord)
  asCsv : Except Unit (List RawRecord)

/-- The error kinds of the pipeline surface. -/
inductive LoadError where
  | notFound : LoadError
  | formatError : LoadError
  deriving DecidableEq, Repr

/-- Python's `str.endswith`: suffix test on the character sequence. -/
def strEndsWith (s suff : String) : Bool :=
  suff.toList.isSuffixOf s.toList

/-- `load_ipl_data` of `main.py`: raise `FileNotFoundError` when the path
does not exist, otherwise read with `pd.read_excel` when the path ends in
`.xlsx` and with `pd.read_csv` otherwise, returning the parsed frame
untransformed.  The file system is a partial map from paths to files. -/
def load_ipl_data (fs : String → Option FileVal) (path : String) :
    Except LoadError (List RawRecord) :=
  match fs path with
  | none => Except.error LoadError.notFound
  | some f =>
    if strEndsWith path ".xlsx" then
      f.asExcel.mapError (fun _ => LoadError.formatError)
    else f.asCsv.mapError (fun _ => LoadError.formatError)

/-! ### Chart Embedder (`embed_charts`) -/

/-- One worksheet: its name and the images anchored on it, each image being
`(file path, anchor row)` — the code anchors every image in column A, at
`f"A{row}"`, so the anchor is just the row number. -/
structure Sheet where
  name : String
  images : List (String × Nat)
  deriving DecidableEq, Repr

/-- An openpyxl workbook: its ordered list of worksheets. -/
structure Workbook where
  sheets : List Sheet
  deriving DecidableEq, Repr

/-- `'Charts' in wb.sheetnames`. -/
def hasSheet (wb : Workbook) (n : String) : Bool :=
  wb.sheets.any (fun s => s.name = n)

/-- `wb.create_sheet(n)`: append a fresh empty sheet of that name. -/
def create_sheet (wb : Workbook) (n : String) : Workbook :=
  ⟨wb.sheets ++ [⟨n, []⟩]⟩

/-- Append one image to a sheet when its name matches. -/
def modSheet (n : String) (path : String) (row : Nat) (s : Sheet) : Sheet :=
  if s.name = n then ⟨s.name, s.images ++ [(path, row)]⟩ else s

/-- `wb[n].add_image(img, anchor)`: append the image to the sheet named `n`
(openpyxl forbids duplicate sheet names, so at most one sheet matches). -/
def add_image (wb : Workbook) (n : String) (path : String) (row : Nat) :
    Workbook :=
  ⟨wb.sheets.map (modSheet n path row)⟩

/-- The loop of `embed_charts`:
`for label, path in chart_paths.items(): ws.add_image(XLImage(path), f"A{row}"); row += 25`. -/
def embedLoop (wb : Workbook) (row : Nat) :
    List (String × String) → Workbook
  | [] => wb
  | (_label, path) :: rest =>
    embedLoop (add_image wb "Charts" path row) (row + 25) rest

/-- `embed_charts` of `main.py`: create a `Charts` sheet when absent, then
anchor each chart image of the mapping, in its iteration order, at rows
1, 26, 51, ….  The workbook is loaded from and saved back to the same path,
which the embedding reflects by mapping the old workbook value to the new. -/
def embed_charts (wb : Workbook) (chart_paths : List (String × String)) :
    Workbook :=
  let wb1 := if hasSheet wb "Charts" then wb else create_sheet wb "Charts"
  embedLoop wb1 1 chart_paths

/-- The anchor positions the loop produces from a given start row: spec-side
description used to compare with `embedLoop`. -/
def expectedPlacements (row : Nat) : List (String × String) → List (String × Nat)
  | [] => []
  | (_label, path) :: rest => (path, row) :: expectedPlacements (row + 25) rest

/-- The images of the (first) sheet named `n`. -/
def sheetImages (wb : Workbook) (n : String) : List (String × Nat) :=
  match wb.sheets.find? (fun s => s.name = n) with
  | some s => s.images
  | none => []

/-! ### Heap model of `clean_ipl_data` for the purity claim

Python rebinding vs. mutation is made explicit: a heap is the list of
DataFrame objects alive during the call, and each pandas operation either
allocates a fresh frame (`fillna` without `inplace`, `drop_duplicates`) or
mutates the frame its receiver points to (column assignment
`df[col] = ...`).  Frame 0 is the caller's frame, bound to the parameter
`df` on entry. -/

/-- A DataFrame object on the heap. -/
abbrev Frame := List RawRecord

/-- `df.fillna({...})` applied frame-wide. -/
def fillnaFrame (f : Frame) : Frame :=
  f.map fillnaRecord

/-- The whole numeric-coercion loop applied frame-wide (this is the one
in-place step: it assigns columns of the frame `df` is bound to). -/
def coerceFrame (f : Frame) : Frame :=
  f.map coerceNumericRecord

/-- `clean_ipl_data` replayed against an explicit heap.  Returns the final
heap and the index of the frame the function returns.  Frame 0 is the
caller's object; `df = df.fillna(...)` allocates frame 1 and rebinds `df`
to it; the coercion loop mutates frame 1 in place; `df.drop_duplicates`
allocates frame 2, which is returned. -/
def clean_ipl_data_heap (input : Frame) : List Frame × Nat :=
  let h0 : List Frame := [input]
  let h1 : List Frame := h0 ++ [fillnaFrame (h0.getD 0 [])]
  let h2 : List Frame := h1.set 1 (coerceFrame (h1.getD 1 []))
  let h3 : List Frame := h2 ++ [dropDuplicates (h2.getD 1 [])]
  (h3, 2)

/-! ### Invariants and example data -/

/-- Whether a cell holds a valid non-negative number. -/
def cellIsNonnegNum (c : Cell) : Bool :=
  match c with
  | Cell.num q => decide (0 ≤ q)
  | _ => false

/-- The cleaning invariant of the specification (§3): no field missing,
every numeric field a valid non-negative number, and no two rows sharing
the `(Player, Team)` identity. -/
def CleanInv (d : List RawRecord) : Prop :=
  (∀ r ∈ d,
    r.player ≠ Cell.missing ∧ r.role ≠ Cell.missing ∧ r.team ≠ Cell.missing ∧
    cellIsNonnegNum r.matchesPlayed = true ∧ cellIsNonnegNum r.runs = true ∧
    cellIsNonnegNum r.bat_sr = true ∧ cellIsNonnegNum r.wickets = true ∧
    cellIsNonnegNum r.econ = true) ∧
  (d.map recordKey).Nodup

/-- The post-cleaning property claimed of `clean_ipl_data`: every output
row has no missing field, all five numeric fields (`Matches` included)
hold valid non-negative numbers, the keys are duplicate-free, and each
kept row is the first normalized row of its key. -/
def claimedCleanSpec (d : List RawRecord) : Prop :=
  (∀ r ∈ clean_ipl_data d,
    r.player ≠ Cell.missing ∧ r.role ≠ Cell.missing ∧ r.team ≠ Cell.missing ∧
    cellIsNonnegNum r.matchesPlayed = true ∧ cellIsNonnegNum r.runs = true ∧
    cellIsNonnegNum r.bat_sr = true ∧ cellIsNonnegNum r.wickets = true ∧
    cellIsNonnegNum r.econ = true) ∧
  ((clean_ipl_data d).map recordKey).Nodup ∧
  (∀ r ∈ clean_ipl_data d,
    (d.map cleanRecord).find? (fun x => decide (recordKey x = recordKey r)) =
      some r)

/-- A row whose `Matches` cell is a non-numeric string and whose `Runs`
cell is negative: cleaning leaves both as they are. -/
def badRow : RawRecord :=
  ⟨Cell.str "A", Cell.str "Bat", Cell.str "T1", Cell.str "abc",
    Cell.num (-1), Cell.num 120, Cell.num 0, Cell.num 0⟩

/-- A fully clean row, used to instantiate hypotheses concretely. -/
def cleanRow : RawRecord :=
  ⟨Cell.str "B", Cell.str "Bowl", Cell.str "T1", Cell.num 10,
    Cell.num 80, Cell.num 130, Cell.num 2, Cell.num 6⟩

/-- A second clean row with a different identity. -/
def cleanRow2 : RawRecord :=
  ⟨Cell.str "C", Cell.str "Bat", Cell.str "T2", Cell.num 5,
    Cell.num 80, Cell.num 110, Cell.num 0, Cell.num 0⟩

/-- A row with a missing name, team `T1`. -/
def missingNameRow : RawRecord :=
  ⟨Cell.missing, Cell.str "Bat", Cell.str "T1", Cell.num 3,
    Cell.num 10, Cell.num 90, Cell.num 0, Cell.num 0⟩

/-- Another row with a missing name and the same team `T1`, but different
statistics. -/
def missingNameRow2 : RawRecord :=
  ⟨Cell.missing, Cell.str "Bowl", Cell.str "T1", Cell.num 7,
    Cell.num 20, Cell.num 95, Cell.num 1, Cell.num 6⟩

/-! ### Lemmas about `dropDupGo` -/

theorem dropDupGo_subset {seen : List (Cell × Cell)} {l : List RawRecord}
    {r : RawRecord} (h : r ∈ dropDupGo seen l) : r ∈ l := by
  induction l generalizing seen with
  | nil => simp [dropDupGo] at h
  | cons x xs ih =>
    by_cases hx : recordKey x ∈ seen
    · simp only [dropDupGo, if_pos hx] at h
      exact List.mem_cons_of_mem _ (ih h)
    · simp only [dropDupGo, if_neg hx, List.mem_cons] at h
      rcases h with h | h
      · exact h ▸ List.mem_cons_self x xs
      · exact List.mem_cons_of_mem _ (ih h)

theorem dropDupGo_key_not_seen {seen : List (Cell × Cell)} {l : List RawRecord}
    {r : RawRecord} (h : r ∈ dropDupGo seen l) : recordKey r ∉ seen := by
  induction l generalizing seen with
  | nil => simp [dropDupGo] at h
  | cons x xs ih =>
    by_cases hx : recordKey x ∈ seen
    · simp only [dropDupGo, if_pos hx] at h
      exact ih h
    · simp only [dropDupGo, if_neg hx, List.mem_cons] at h
      rcases h with h | h
      · exact h ▸ hx
      · intro hc
        exact ih h (List.mem_cons_of_mem _ hc)

theorem dropDupGo_find_first {seen : List (Cell × Cell)} {l : List RawRecord}
    {r : RawRecord} (h : r ∈ dropDupGo seen l) :
    l.find? (fun x => decide (recordKey x = recordKey r)) = some r := by
  induction l generalizing seen with
  | nil => simp [dropDupGo] at h
  | cons x xs ih =>
    by_cases hx : recordKey x ∈ seen
    · simp only [dropDupGo, if_pos hx] at h
      have hne : recordKey x ≠ recordKey r := by
        intro he
        exact dropDupGo_key_not_seen h (he ▸ hx)
      rw [List.find?_cons_of_neg _ (by simpa using hne)]
      exact ih h
    · simp only [dropDupGo, if_neg hx, List.mem_cons] at h
      rcases h with h | h
      · subst h
        rw [List.find?_cons_of_pos _ (by simp)]
      · have hne : recordKey x ≠ recordKey r := by
          intro he
          exact dropDupGo_key_not_seen h (he ▸ List.mem_cons_self _ seen)
        rw [List.find?_cons_of_neg _ (by simpa using hne)]
        exact ih h

theorem dropDupGo_keys_nodup (seen : List (Cell × Cell)) (l : List RawRecord) :
    ((dropDupGo seen l).map recordKey).Nodup := by
  induction l generalizing seen with
  | nil => simp [dropDupGo]
  | cons x xs ih =>
    by_cases hx : recordKey x ∈ seen
    · simpa only [dropDupGo, if_pos hx] using ih seen
    · simp only [dropDupGo, if_neg hx, List.map_cons, List.nodup_cons]
      refine ⟨?_, ih _⟩
      intro hc
      rcases List.mem_map.1 hc with ⟨r, hr, hkey⟩
      exact dropDupGo_key_not_seen hr (hkey ▸ List.mem_cons_self _ seen)

theorem dropDupGo_covers {seen : List (Cell × Cell)} {l : List RawRecord}
    {x : RawRecord} (hx : x ∈ l) (hs : recordKey x ∉ seen) :
    ∃ r ∈ dropDupGo seen l, recordKey r = recordKey x := by
  induction l generalizing seen with
  | nil => simp at hx
  | cons y ys ih =>
    by_cases hy : recordKey y ∈ seen
    · rcases List.mem_cons.1 hx with h | h
      · exact absurd (h ▸ hy) hs
      · simpa only [dropDupGo, if_pos hy] using ih h hs
    · simp only [dropDupGo, if_neg hy]
      rcases List.mem_cons.1 hx with h | h
      · exact ⟨y, List.mem_cons_self _ _, (h ▸ rfl : recordKey y = recordKey x)⟩
      · by_cases hk : recordKey x = recordKey y
        · exact ⟨y, List.mem_cons_self _ _, hk.symm⟩
        · have hs' : recordKey x ∉ recordKey y :: seen := by
            simp only [List.mem_cons]
            tauto
          rcases ih h hs' with ⟨r, hr, hkey⟩
          exact ⟨r, List.mem_cons_of_mem _ hr, hkey⟩

theorem dropDupGo_id {seen : List (Cell × Cell)} {l : List RawRecord}
    (hseen : ∀ x ∈ l, recordKey x ∉ seen) (hnd : (l.map recordKey).Nodup) :
    dropDupGo seen l = l := by
  induction l generalizing seen with
  | nil => rfl
  | cons x xs ih =>
    have hx : recordKey x ∉ seen := hseen x (List.mem_cons_self _ _)
    simp only [dropDupGo, if_neg hx]
    congr 1
    apply ih
    · intro y hy
      simp only [List.mem_cons, not_or]
      constructor
      · intro he
        simp only [List.map_cons, List.nodup_cons] at hnd
        exact hnd.1 (he ▸ List.mem_map_of_mem recordKey hy)
      · exact hseen y (List.mem_cons_of_mem _ hy)
    · simp only [List.map_cons, List.nodup_cons] at hnd
      exact hnd.2

theorem dropDupGo_skip (seen : List (Cell × Cell)) (l1 l2 : List RawRecord)
    (y : RawRecord) (hy : recordKey y ∈ l1.map recordKey ∨ recordKey y ∈ seen) :
    dropDupGo seen (l1 ++ y :: l2) = dropDupGo seen (l1 ++ l2) := by
  induction l1 generalizing seen with
  | nil =>
    rcases hy with hy | hy
    · simp at hy
    · simp only [List.nil_append, dropDupGo, if_pos hy]
  | cons x l1 ih =>
    simp only [List.cons_append, dropDupGo]
    by_cases hx : recordKey x ∈ seen
    · rw [if_pos hx, if_pos hx]
      apply ih
      rcases hy with hy | hy
      · simp only [List.map_cons, List.mem_cons] at hy
        rcases hy with hy | hy
        · exact Or.inr (hy ▸ hx)
        · exact Or.inl hy
      · exact Or.inr hy
    · rw [if_neg hx, if_neg hx]
      congr 1
      apply ih
      rcases hy with hy | hy
      · simp only [List.map_cons, List.mem_cons] at hy
        rcases hy with hy | hy
        · exact Or.inr (hy ▸ List.mem_cons_self _ _)
        · exact Or.inl hy
      · exact Or.inr (List.mem_cons_of_mem _ hy)

/-! ### Lemmas about cells and `cleanRecord` -/

theorem fillCell_str_ne_missing (u : String) (c : Cell) :
    fillCell (Cell.str u) c ≠ Cell.missing := by
  cases c <;> simp [fillCell]

theorem fillCell_num_ne_missing (q : ℚ) (c : Cell) :
    fillCell (Cell.num q) c ≠ Cell.missing := by
  cases c <;> simp [fillCell]

theorem coerceCell_isNum (c : Cell) : ∃ q, coerceCell c = Cell.num q := by
  cases c with
  | missing => exact ⟨0, rfl⟩
  | num q => exact ⟨q, rfl⟩
  | str s =>
    simp only [coerceCell, toNumericCell]
    cases parseNum s with
    | none => exact ⟨0, rfl⟩
    | some q => exact ⟨q, by simp [fillCell]⟩

theorem fillCell_fillCell (d c : Cell) :
    fillCell d (fillCell d c) = fillCell d c := by
  cases c <;> cases d <;> rfl

theorem coerceCell_num (q : ℚ) : coerceCell (Cell.num q) = Cell.num q := rfl

theorem coerceCell_fill_coerce (c : Cell) :
    coerceCell (fillCell (Cell.num 0) (coerceCell c)) = coerceCell c := by
  rcases coerceCell_isNum c with ⟨q, hq⟩
  rw [hq]
  rfl

theorem cleanRecord_idem (r : RawRecord) :
    cleanRecord (cleanRecord r) = cleanRecord r := by
  cases r with
  | mk p ro t m ru bs w e =>
    simp only [cleanRecord, fillnaRecord, coerceNumericRecord]
    congr 1 <;>
      first
        | exact fillCell_fillCell _ _
        | exact coerceCell_fill_coerce _

theorem cleanRecord_player_ne_missing (r : RawRecord) :
    (cleanRecord r).player ≠ Cell.missing :=
  fillCell_str_ne_missing _ _

theorem cleanRecord_fields (r : RawRecord) :
    (cleanRecord r).player ≠ Cell.missing ∧
    (cleanRecord r).role ≠ Cell.missing ∧
    (cleanRecord r).team ≠ Cell.missing ∧
    (cleanRecord r).matchesPlayed ≠ Cell.missing ∧
    (∃ q, (cleanRecord r).runs = Cell.num q) ∧
    (∃ q, (cleanRecord r).bat_sr = Cell.num q) ∧
    (∃ q, (cleanRecord r).wickets = Cell.num q) ∧
    (∃ q, (cleanRecord r).econ = Cell.num q) := by
  refine ⟨fillCell_str_ne_missing _ _, fillCell_str_ne_missing _ _,
    fillCell_str_ne_missing _ _, fillCell_num_ne_missing _ _, ?_, ?_, ?_, ?_⟩ <;>
    exact coerceCell_isNum _

/-! ### Lemmas about the stable descending sort -/

theorem insertDescBy_perm {α : Type} (k : α → ℚ) (a : α) (l : List α) :
    List.Perm (insertDescBy k a l) (a :: l) := by
  induction l with
  | nil => exact List.Perm.refl _
  | cons x xs ih =>
    by_cases h : k x ≤ k a
    · simp only [insertDescBy, if_pos h]
      exact List.Perm.refl _
    · simp only [insertDescBy, if_neg h]
      exact (ih.cons x).trans (List.Perm.swap a x xs)

theorem sortDescBy_perm {α : Type} (k : α → ℚ) (l : List α) :
    List.Perm (sortDescBy k l) l := by
  induction l with
  | nil => exact List.Perm.refl _
  | cons x xs ih =>
    exact (insertDescBy_perm k x (sortDescBy k xs)).trans (ih.cons x)

theorem sortDescBy_length {α : Type} (k : α → ℚ) (l : List α) :
    (sortDescBy k l).length = l.length :=
  (sortDescBy_perm k l).length_eq

theorem mem_insertDescBy {α : Type} {k : α → ℚ} {a b : α} {l : List α} :
    b ∈ insertDescBy k a l ↔ b = a ∨ b ∈ l := by
  rw [List.Perm.mem_iff (insertDescBy_perm k a l), List.mem_cons]

theorem insertDescBy_pairwise {α : Type} {k : α → ℚ} {a : α} {l : List α}
    (h : l.Pairwise (fun x y => k y ≤ k x)) :
    (insertDescBy k a l).Pairwise (fun x y => k y ≤ k x) := by
  induction l with
  | nil => simp [insertDescBy]
  | cons x xs ih =>
    rcases List.pairwise_cons.1 h with ⟨hx, hxs⟩
    by_cases hle : k x ≤ k a
    · simp only [insertDescBy, if_pos hle]
      refine List.pairwise_cons.2 ⟨?_, h⟩
      intro b hb
      rcases List.mem_cons.1 hb with hb | hb
      · exact hb ▸ hle
      · exact le_trans (hx b hb) hle
    · simp only [insertDescBy, if_neg hle]
      refine List.pairwise_cons.2 ⟨?_, ih hxs⟩
      intro b hb
      rcases mem_insertDescBy.1 hb with hb | hb
      · exact hb ▸ le_of_lt (lt_of_not_le hle)
      · exact hx b hb

theorem sortDescBy_pairwise {α : Type} (k : α → ℚ) (l : List α) :
    (sortDescBy k l).Pairwise (fun x y => k y ≤ k x) := by
  induction l with
  | nil => simp [sortDescBy]
  | cons x xs ih => exact insertDescBy_pairwise ih

theorem insertDescBy_filter {α : Type} {k : α → ℚ} {a : α} {l : List α}
    (h : l.Pairwise (fun x y => k y ≤ k x)) (v : ℚ) :
    (insertDescBy k a l).filter (fun x => decide (k x = v)) =
      (a :: l).filter (fun x => decide (k x = v)) := by
  induction l with
  | nil => rfl
  | cons x xs ih =>
    rcases List.pairwise_cons.1 h with ⟨_, hxs⟩
    by_cases hle : k x ≤ k a
    · simp only [insertDescBy, if_pos hle]
    · simp only [insertDescBy, if_neg hle]
      have hlt : k a < k x := lt_of_not_le hle
      have key : (insertDescBy k a xs).filter (fun x => decide (k x = v)) =
          (a :: xs).filter (fun x => decide (k x = v)) := ih hxs
      by_cases hxv : k x = v
      · have hav : k a ≠ v := by
          intro hav
          exact absurd (hav ▸ hxv ▸ rfl : k a = k x) (ne_of_lt hlt)
        simp only [List.filter_cons, hxv, hav] at key ⊢
        simp only [key]
        simp [hav]
      · simp only [List.filter_cons, hxv] at key ⊢
        simp only [key]
        simp [hxv]

theorem sortDescBy_filter {α : Type} (k : α → ℚ) (l : List α) (v : ℚ) :
    (sortDescBy k l).filter (fun x => decide (k x = v)) =
      l.filter (fun x => decide (k x = v)) := by
  induction l with
  | nil => rfl
  | cons x xs ih =>
    simp only [sortDescBy]
    rw [insertDescBy_filter (sortDescBy_pairwise k xs) v]
    simp only [List.filter_cons]
    by_cases hxv : k x = v
    · simp only [hxv, ih]
    · simp only [hxv, ih]

/-! ### Generic list helpers -/

theorem list_map_id_of_mem {α : Type} {f : α → α} :
    ∀ {l : List α}, (∀ x ∈ l, f x = x) → l.map f = l
  | [], _ => rfl
  | x :: xs, h => by
    simp only [List.map_cons]
    rw [h x (List.mem_cons_self _ _),
      list_map_id_of_mem (fun y hy => h y (List.mem_cons_of_mem _ hy))]

/-! ### The top-N view: length, order, stability, projection -/

theorem topView_spec (metric : RawRecord → Cell) (d : List RawRecord) :
    (projectView metric (nlargest10 (fun r => numVal (metric r)) d)).length =
      min 10 d.length ∧
    (projectView metric (nlargest10 (fun r => numVal (metric r)) d)).Pairwise
      (fun a b => numVal b.2.2 ≤ numVal a.2.2) ∧
    ∀ row ∈ projectView metric (nlargest10 (fun r => numVal (metric r)) d),
      ∃ r ∈ d, row = (r.player, r.team, metric r) := by
  refine ⟨?_, ?_, ?_⟩
  · simp [projectView, nlargest10, List.length_take,
      sortDescBy_length (fun r => numVal (metric r)) d]
  · unfold projectView
    rw [List.pairwise_map]
    exact List.Pairwise.sublist (List.take_sublist 10 _)
      (sortDescBy_pairwise (fun r => numVal (metric r)) d)
  · intro row hrow
    rcases List.mem_map.1 hrow with ⟨r, hr, heq⟩
    have h1 : r ∈ sortDescBy (fun r => numVal (metric r)) d :=
      List.mem_of_mem_take hr
    have h2 : r ∈ d :=
      (List.Perm.mem_iff (sortDescBy_perm (fun r => numVal (metric r)) d)).1 h1
    exact ⟨r, h2, heq.symm⟩

/-! ### The economy series pipeline -/

theorem dropna_replace_eq_filter (d : List RawRecord) :
    seriesDropna (econReplaceZero d) =
      (d.filter (fun r => decide (numVal r.econ ≠ 0))).map
        (fun r => numVal r.econ) := by
  induction d with
  | nil => rfl
  | cons r rs ih =>
    by_cases h : numVal r.econ = 0
    · simp only [seriesDropna, econReplaceZero, List.map_cons, if_pos h,
        List.filterMap_cons, List.filter_cons, h]
      simpa [seriesDropna, econReplaceZero] using ih
    · simp only [seriesDropna, econReplaceZero, List.map_cons, if_neg h,
        List.filterMap_cons, List.filter_cons, h]
      simp only [ne_eq, not_false_eq_true, decide_True] at *
      simp [seriesDropna, econReplaceZero] at ih
      simp [ih, h]

/-! ### Workbook helper lemmas -/

theorem modSheet_name (n p : String) (row : Nat) (s : Sheet) :
    (modSheet n p row s).name = s.name := by
  by_cases h : s.name = n <;> simp [modSheet, h]

theorem add_image_names (wb : Workbook) (n p : String) (row : Nat) :
    (add_image wb n p row).sheets.map Sheet.name = wb.sheets.map Sheet.name := by
  rcases wb with ⟨l⟩
  simp only [add_image, List.map_map]
  induction l with
  | nil => rfl
  | cons s ss ih =>
    simp only [List.map_cons, Function.comp_apply, modSheet_name]
    exact congrArg _ ih

theorem hasSheet_iff_mem_names (wb : Workbook) (n : String) :
    hasSheet wb n = true ↔ n ∈ wb.sheets.map Sheet.name := by
  simp only [hasSheet, List.any_eq_true, List.mem_map, decide_eq_true_eq]

theorem hasSheet_add_image (wb : Workbook) (n p m : String) (row : Nat) :
    hasSheet (add_image wb n p row) m = hasSheet wb m := by
  rcases wb with ⟨l⟩
  simp only [hasSheet, add_image]
  induction l with
  | nil => rfl
  | cons s ss ih =>
    simp only [List.map_cons, List.any_cons, modSheet_name, ih]

theorem sheetImages_add_image (wb : Workbook) (n p : String) (row : Nat)
    (h : hasSheet wb n = true) :
    sheetImages (add_image wb n p row) n = sheetImages wb n ++ [(p, row)] := by
  rcases wb with ⟨l⟩
  simp only [hasSheet, List.any_eq_true, decide_eq_true_eq] at h
  induction l with
  | nil => simp at h
  | cons s ss ih =>
    by_cases hs : s.name = n
    · simp [sheetImages, add_image, List.find?_cons_of_pos, modSheet, hs]
    · have h' : ∃ x ∈ ss, x.name = n := by
        rcases h with ⟨x, hx, hxn⟩
        rcases List.mem_cons.1 hx with rfl | hx
        · exact absurd hxn hs
        · exact ⟨x, hx, hxn⟩
      have := ih h'
      simp only [sheetImages, add_image, List.map_cons] at this ⊢
      rw [List.find?_cons_of_neg _ (by simp [modSheet_name, hs]),
        List.find?_cons_of_neg _ (by simp [hs])]
      exact this

theorem add_image_filter_ne (wb : Workbook) (n p m : String) (row : Nat)
    (hm : m ≠ n) :
    (add_image wb n p row).sheets.filter (fun s => decide (s.name = m)) =
      wb.sheets.filter (fun s => decide (s.name = m)) := by
  rcases wb with ⟨l⟩
  simp only [add_image]
  induction l with
  | nil => rfl
  | cons s ss ih =>
    simp only [List.map_cons, List.filter_cons]
    by_cases hs : s.name = m
    · have hsn : s.name ≠ n := fun hc => hm (hs.symm.trans hc)
      have hmod : modSheet n p row s = s := by
        simp [modSheet, hsn]
      simp [hmod, hs, ih]
    · simp [modSheet_name, hs, ih]

theorem embedLoop_names (cp : List (String × String)) (wb : Workbook)
    (row : Nat) :
    (embedLoop wb row cp).sheets.map Sheet.name = wb.sheets.map Sheet.name := by
  induction cp generalizing wb row with
  | nil => rfl
  | cons lp rest ih =>
    rcases lp with ⟨label, path⟩
    simp only [embedLoop]
    rw [ih, add_image_names]

theorem embedLoop_images (cp : List (String × String)) (wb : Workbook)
    (row : Nat) (h : hasSheet wb "Charts" = true) :
    sheetImages (embedLoop wb row cp) "Charts" =
      sheetImages wb "Charts" ++ expectedPlacements row cp := by
  induction cp generalizing wb row with
  | nil => simp [embedLoop, expectedPlacements]
  | cons lp rest ih =>
    rcases lp with ⟨label, path⟩
    simp only [embedLoop, expectedPlacements]
    rw [ih _ _ (by rw [hasSheet_add_image]; exact h),
      sheetImages_add_image _ _ _ _ h, List.append_assoc]
    rfl

theorem embedLoop_filter_ne (cp : List (String × String)) (wb : Workbook)
    (row : Nat) (m : String) (hm : m ≠ "Charts") :
    (embedLoop wb row cp).sheets.filter (fun s => decide (s.name = m)) =
      wb.sheets.filter (fun s => decide (s.name = m)) := by
  induction cp generalizing wb row with
  | nil => rfl
  | cons lp rest ih =>
    rcases lp with ⟨label, path⟩
    simp only [embedLoop]
    rw [ih, add_image_filter_ne _ _ _ _ _ hm]

theorem expectedPlacements_getElem? (cp : List (String × String)) :
    ∀ (row i : Nat),
      (expectedPlacements row cp)[i]? =
        (cp[i]?).map (fun lp => (lp.2, row + 25 * i)) := by
  induction cp with
  | nil => intro row i; simp [expectedPlacements]
  | cons lp rest ih =>
    intro row i
    rcases lp with ⟨label, path⟩
    cases i with
    | zero => simp [expectedPlacements]
    | succ j =>
      simp only [expectedPlacements, List.getElem?_cons_succ]
      rw [ih (row + 25) j]
      cases rest[j]? with
      | none => rfl
      | some lp2 =>
        simp only [Option.map_some']
        congr 1
        congr 1
        ring

/-! ### Records that cleaning leaves unchanged -/

theorem fillCell_of_ne_missing {c : Cell} (d : Cell) (h : c ≠ Cell.missing) :
    fillCell d c = c := by
  cases c with
  | missing => exact absurd rfl h
  | str s => rfl
  | num q => rfl

theorem cleanRecord_eq_self (r : RawRecord)
    (h1 : r.player ≠ Cell.missing) (h2 : r.role ≠ Cell.missing)
    (h3 : r.team ≠ Cell.missing) (h4 : r.matchesPlayed ≠ Cell.missing)
    (h5 : ∃ q, r.runs = Cell.num q) (h6 : ∃ q, r.bat_sr = Cell.num q)
    (h7 : ∃ q, r.wickets = Cell.num q) (h8 : ∃ q, r.econ = Cell.num q) :
    cleanRecord r = r := by
  rcases h5 with ⟨q5, e5⟩
  rcases h6 with ⟨q6, e6⟩
  rcases h7 with ⟨q7, e7⟩
  rcases h8 with ⟨q8, e8⟩
  cases r with
  | mk p ro t m ru bs w e =>
    simp only at h1 h2 h3 h4 e5 e6 e7 e8
    subst e5 e6 e7 e8
    simp only [cleanRecord, fillnaRecord, coerceNumericRecord]
    congr 1 <;>
      first
        | exact fillCell_of_ne_missing _ h1
        | exact fillCell_of_ne_missing _ h2
        | exact fillCell_of_ne_missing _ h3
        | exact fillCell_of_ne_missing _ h4

/-! ### Claim theorems -/

/-- C1 (counterexample): the claimed cleaning postcondition — all five
numeric fields (`Matches` included) valid non-negative numbers — fails on
a one-row dataset whose `Matches` holds the string `"abc"` and whose
`Runs` is `-1`: the code never coerces `Matches` and never clamps
negative numbers. -/
theorem claim_C1_counterexample : ¬ claimedCleanSpec [badRow] := by
  intro h
  have hb : badRow ∈ clean_ipl_data [badRow] := by decide
  have := (h.1 badRow hb).2.2.2.1
  simp [badRow, cellIsNonnegNum] at this

/-- C1 (amended): after cleaning, no field of any kept row is missing,
the four coerced numeric fields `Runs, Bat_SR, Wickets, Econ` hold valid
(possibly negative) numbers, `Matches` is merely non-missing (it is filled
when absent but never coerced), the `(Player, Team)` keys are
duplicate-free, each kept row is the first normalized row of its key, and
every input row's key is represented. -/
theorem claim_C1_amended (d : List RawRecord) :
    (∀ r ∈ clean_ipl_data d,
      r.player ≠ Cell.missing ∧ r.role ≠ Cell.missing ∧
      r.team ≠ Cell.missing ∧ r.matchesPlayed ≠ Cell.missing ∧
      (∃ q, r.runs = Cell.num q) ∧ (∃ q, r.bat_sr = Cell.num q) ∧
      (∃ q, r.wickets = Cell.num q) ∧ (∃ q, r.econ = Cell.num q)) ∧
    ((clean_ipl_data d).map recordKey).Nodup ∧
    (∀ r ∈ clean_ipl_data d,
      (d.map cleanRecord).find?
        (fun x => decide (recordKey x = recordKey r)) = some r) ∧
    (∀ x ∈ d, ∃ r ∈ clean_ipl_data d,
      recordKey r = recordKey (cleanRecord x)) := by
  refine ⟨?_, dropDupGo_keys_nodup [] _, ?_, ?_⟩
  · intro r hr
    have hr' : r ∈ d.map cleanRecord := dropDupGo_subset hr
    rcases List.mem_map.1 hr' with ⟨x, _, rfl⟩
    exact cleanRecord_fields x
  · intro r hr
    exact dropDupGo_find_first hr
  · intro x hx
    exact dropDupGo_covers (List.mem_map_of_mem cleanRecord hx) (by simp)

/-- Witness for C1 (amended) at a concrete two-row dataset. -/
theorem claim_C1_amended_witness :
    ((clean_ipl_data [cleanRow, badRow]).map recordKey).Nodup ∧
    (([cleanRow, badRow].map cleanRecord).find?
        (fun x => decide (recordKey x = recordKey cleanRow)) =
      some cleanRow) := by
  have h := claim_C1_amended [cleanRow, badRow]
  exact ⟨h.2.1, h.2.2.1 cleanRow (by decide)⟩

/-- C4: cleaning a dataset that satisfies the cleaning invariant returns
it unchanged, and cleaning is idempotent on every dataset. -/
theorem claim_C4 :
    (∀ d, CleanInv d → clean_ipl_data d = d) ∧
    (∀ d, clean_ipl_data (clean_ipl_data d) = clean_ipl_data d) := by
  constructor
  · rintro d ⟨hfields, hnd⟩
    have hmap : d.map cleanRecord = d := by
      apply list_map_id_of_mem
      intro r hr
      rcases hfields r hr with ⟨f1, f2, f3, f4, f5, f6, f7, f8⟩
      refine cleanRecord_eq_self r f1 f2 f3 ?_ ?_ ?_ ?_ ?_
      · cases hm : r.matchesPlayed <;> simp [cellIsNonnegNum, hm] at f4 ⊢
      · cases hm : r.runs <;> simp [cellIsNonnegNum, hm] at f5 ⊢
      · cases hm : r.bat_sr <;> simp [cellIsNonnegNum, hm] at f6 ⊢
      · cases hm : r.wickets <;> simp [cellIsNonnegNum, hm] at f7 ⊢
      · cases hm : r.econ <;> simp [cellIsNonnegNum, hm] at f8 ⊢
    show dropDupGo [] (d.map cleanRecord) = d
    rw [hmap]
    exact dropDupGo_id (by simp) hnd
  · intro d
    have hsub : ∀ r ∈ clean_ipl_data d, cleanRecord r = r := by
      intro r hr
      rcases List.mem_map.1 (dropDupGo_subset hr) with ⟨x, _, rfl⟩
      exact cleanRecord_idem x
    have hmap : (clean_ipl_data d).map cleanRecord = clean_ipl_data d :=
      list_map_id_of_mem hsub
    show dropDupGo [] ((clean_ipl_data d).map cleanRecord) = clean_ipl_data d
    rw [hmap]
    exact dropDupGo_id (by simp) (dropDupGo_keys_nodup [] _)

/-- Witness for C4 at a concrete already-clean one-row dataset. -/
theorem claim_C4_witness :
    CleanInv [cleanRow] ∧ clean_ipl_data [cleanRow] = [cleanRow] := by
  have h : CleanInv [cleanRow] := by
    constructor
    · intro r hr
      rcases List.mem_cons.1 hr with rfl | hr
      · refine ⟨by decide, by decide, by decide, ?_, ?_, ?_, ?_, ?_⟩ <;> decide
      · simp at hr
    · decide
  exact ⟨h, claim_C4.1 [cleanRow] h⟩

/-- C5: replayed against an explicit heap of DataFrame objects, cleaning
leaves the caller's frame (frame 0) unchanged and returns a freshly
allocated frame holding exactly the pure cleaning result: the single
in-place step (the column assignments) targets the copy `fillna` returned,
never the input. -/
theorem claim_C5 (input : List RawRecord) :
    (clean_ipl_data_heap input).1.getD 0 [] = input ∧
    (clean_ipl_data_heap input).1.getD (clean_ipl_data_heap input).2 [] =
      clean_ipl_data input := by
  constructor
  · rfl
  · show dropDuplicates (coerceFrame (fillnaFrame input)) = clean_ipl_data input
    simp only [coerceFrame, fillnaFrame, clean_ipl_data, List.map_map]
    rfl

/-- C9: on the empty dataset the analyzer returns empty top views and
undefined (`none`) averages for both summary metrics, with no failure. -/
theorem claim_C9 :
    analyze_ipl [] = ([], [], (none, none)) := rfl

/-- C10: missing names are filled before deduplication, so two rows with
missing names and the same team both acquire the identity
`("Unknown", team)`, and the later one contributes nothing to the cleaned
dataset. -/
theorem claim_C10 (pre mid post : List RawRecord) (r1 r2 : RawRecord)
    (h1 : r1.player = Cell.missing) (h2 : r2.player = Cell.missing)
    (ht : r1.team = r2.team) :
    (cleanRecord r1).player = Cell.str "Unknown" ∧
    (cleanRecord r2).player = Cell.str "Unknown" ∧
    recordKey (cleanRecord r1) = recordKey (cleanRecord r2) ∧
    clean_ipl_data (pre ++ r1 :: mid ++ r2 :: post) =
      clean_ipl_data (pre ++ r1 :: mid ++ post) := by
  have hp1 : (cleanRecord r1).player = Cell.str "Unknown" := by
    simp [cleanRecord, coerceNumericRecord, fillnaRecord, h1, fillCell]
  have hp2 : (cleanRecord r2).player = Cell.str "Unknown" := by
    simp [cleanRecord, coerceNumericRecord, fillnaRecord, h2, fillCell]
  have htm : (cleanRecord r1).team = (cleanRecord r2).team := by
    simp [cleanRecord, coerceNumericRecord, fillnaRecord, ht]
  have hkey : recordKey (cleanRecord r1) = recordKey (cleanRecord r2) := by
    simp [recordKey, hp1, hp2, htm]
  refine ⟨hp1, hp2, hkey, ?_⟩
  have hsplit1 : pre ++ r1 :: mid ++ r2 :: post =
      (pre ++ r1 :: mid) ++ r2 :: post := by
    simp [List.append_assoc]
  have hsplit2 : pre ++ r1 :: mid ++ post = (pre ++ r1 :: mid) ++ post := by
    simp [List.append_assoc]
  rw [hsplit1, hsplit2]
  show dropDupGo [] (((pre ++ r1 :: mid) ++ r2 :: post).map cleanRecord) =
    dropDupGo [] (((pre ++ r1 :: mid) ++ post).map cleanRecord)
  have e1 : ((pre ++ r1 :: mid) ++ r2 :: post).map cleanRecord =
      (pre ++ r1 :: mid).map cleanRecord ++
        cleanRecord r2 :: post.map cleanRecord := by
    rw [List.map_append, List.map_cons]
  have e2 : ((pre ++ r1 :: mid) ++ post).map cleanRecord =
      (pre ++ r1 :: mid).map cleanRecord ++ post.map cleanRecord := by
    rw [List.map_append]
  rw [e1, e2]
  have hyin : recordKey (cleanRecord r2) ∈
      ((pre ++ r1 :: mid).map cleanRecord).map recordKey := by
    rw [← hkey]
    apply List.mem_map_of_mem recordKey
    apply List.mem_map_of_mem cleanRecord
    exact List.mem_append_right pre (List.mem_cons_self _ _)
  exact dropDupGo_skip [] _ _ _ (Or.inl hyin)

/-- Witness for C10 at concrete rows around two missing-name, same-team
rows. -/
theorem claim_C10_witness :
    (cleanRecord missingNameRow).player = Cell.str "Unknown" ∧
    clean_ipl_data ([cleanRow] ++ missingNameRow :: [] ++
        missingNameRow2 :: [cleanRow2]) =
      clean_ipl_data ([cleanRow] ++ missingNameRow :: [] ++ [cleanRow2]) := by
  have h := claim_C10 [cleanRow] [] [cleanRow2] missingNameRow missingNameRow2
    rfl rfl rfl
  exact ⟨h.1, h.2.2.2⟩

/-- C2: the bowling-economy average equals the mean over exactly the rows
with nonzero economy (zero-economy rows excluded from numerator and
denominator), and when no row has nonzero economy the result is `none`
(pandas `NaN`), not `0` and not a failure. -/
theorem claim_C2 (d : List RawRecord) :
    (avg_bowling_econ d =
      if (d.filter (fun r => decide (numVal r.econ ≠ 0))).map
          (fun r => numVal r.econ) = []
      then none
      else some
        (((d.filter (fun r => decide (numVal r.econ ≠ 0))).map
            (fun r => numVal r.econ)).sum /
          ((d.filter (fun r => decide (numVal r.econ ≠ 0))).map
            (fun r => numVal r.econ)).length)) ∧
    ((∀ r ∈ d, numVal r.econ = 0) → avg_bowling_econ d = none) := by
  have hpipe := dropna_replace_eq_filter d
  constructor
  · simp only [avg_bowling_econ, seriesMean, hpipe]
  · intro hall
    simp only [avg_bowling_econ, seriesMean, hpipe]
    have hnil : d.filter (fun r => decide (numVal r.econ ≠ 0)) = [] := by
      rw [List.filter_eq_nil_iff]
      intro r hr
      simp [hall r hr]
    rw [hnil]
    simp

/-- Witness for C2 at a concrete dataset whose only row has zero economy. -/
theorem claim_C2_witness : avg_bowling_econ [cleanRow2] = none :=
  (claim_C2 [cleanRow2]).2 (by decide)

/-- C3: for a nonempty dataset, each top view has length
`min 10 (number of rows)`, is ordered descending by its metric, the
underlying descending sort is stable (each metric-value class keeps its
original relative order), and each view row is exactly the
`(Player, Team, metric)` projection of some dataset row. -/
theorem claim_C3 (d : List RawRecord) (_h : d ≠ []) :
    ((top_runs d).length = min 10 d.length ∧
      (top_runs d).Pairwise (fun a b => numVal b.2.2 ≤ numVal a.2.2) ∧
      (∀ v, (sortDescBy (fun r => numVal r.runs) d).filter
          (fun r => decide (numVal r.runs = v)) =
        d.filter (fun r => decide (numVal r.runs = v))) ∧
      (∀ row ∈ top_runs d, ∃ r ∈ d, row = (r.player, r.team, r.runs))) ∧
    ((top_wickets d).length = min 10 d.length ∧
      (top_wickets d).Pairwise (fun a b => numVal b.2.2 ≤ numVal a.2.2) ∧
      (∀ v, (sortDescBy (fun r => numVal r.wickets) d).filter
          (fun r => decide (numVal r.wickets = v)) =
        d.filter (fun r => decide (numVal r.wickets = v))) ∧
      (∀ row ∈ top_wickets d, ∃ r ∈ d, row = (r.player, r.team, r.wickets))) := by
  refine ⟨⟨(topView_spec (fun r => r.runs) d).1,
      (topView_spec (fun r => r.runs) d).2.1,
      fun v => sortDescBy_filter (fun r => numVal r.runs) d v,
      (topView_spec (fun r => r.runs) d).2.2⟩,
    (topView_spec (fun r => r.wickets) d).1,
      (topView_spec (fun r => r.wickets) d).2.1,
      fun v => sortDescBy_filter (fun r => numVal r.wickets) d v,
      (topView_spec (fun r => r.wickets) d).2.2⟩

/-- Witness for C3 at a concrete two-row dataset (with a tie on runs). -/
theorem claim_C3_witness :
    (top_runs [cleanRow, cleanRow2]).length =
      min 10 ([cleanRow, cleanRow2] : List RawRecord).length ∧
    (top_wickets [cleanRow, cleanRow2]).length =
      min 10 ([cleanRow, cleanRow2] : List RawRecord).length := by
  have h := claim_C3 [cleanRow, cleanRow2] (by decide)
  exact ⟨h.1.1, h.2.1⟩

/-- C7: the loader fails with `NotFoundError` exactly when the path does
not exist; when the path exists the reader is selected by the `.xlsx`
extension, a successful parse is returned untransformed, and a parse
failure surfaces as `FormatError`, never as `NotFoundError`. -/
theorem claim_C7 (fs : String → Option FileVal) (path : String) :
    (load_ipl_data fs path = Except.error LoadError.notFound ↔
      fs path = none) ∧
    (∀ f d, fs path = some f → strEndsWith path ".xlsx" = true →
      f.asExcel = Except.ok d → load_ipl_data fs path = Except.ok d) ∧
    (∀ f d, fs path = some f → strEndsWith path ".xlsx" = false →
      f.asCsv = Except.ok d → load_ipl_data fs path = Except.ok d) ∧
    (∀ f e, fs path = some f → strEndsWith path ".xlsx" = true →
      f.asExcel = Except.error e →
      load_ipl_data fs path = Except.error LoadError.formatError) ∧
    (∀ f e, fs path = some f → strEndsWith path ".xlsx" = false →
      f.asCsv = Except.error e →
      load_ipl_data fs path = Except.error LoadError.formatError) := by
  refine ⟨?_, ?_, ?_, ?_, ?_⟩
  · cases hfs : fs path with
    | none => simp [load_ipl_data, hfs]
    | some f =>
      simp only [load_ipl_data, hfs]
      constructor
      · intro hload
        by_cases hend : strEndsWith path ".xlsx" = true
        · rw [if_pos hend] at hload
          cases hx : f.asExcel with
          | ok d => rw [hx] at hload; simp [Except.mapError] at hload
          | error e =>
            rw [hx] at hload
            simp only [Except.mapError] at hload
            exact absurd (Except.error.inj hload) (by simp)
        · rw [if_neg hend] at hload
          cases hx : f.asCsv with
          | ok d => rw [hx] at hload; simp [Except.mapError] at hload
          | error e =>
            rw [hx] at hload
            simp only [Except.mapError] at hload
            exact absurd (Except.error.inj hload) (by simp)
      · intro hc
        exact absurd hc (by simp)
  · intro f d hfs hend hx
    simp [load_ipl_data, hfs, hend, hx, Except.mapError]
  · intro f d hfs hend hx
    simp [load_ipl_data, hfs, hend, hx, Except.mapError]
  · intro f e hfs hend hx
    simp [load_ipl_data, hfs, hend, hx, Except.mapError]
  · intro f e hfs hend hx
    simp [load_ipl_data, hfs, hend, hx, Except.mapError]

/-- Witness for C7: a one-file file system where the `.xlsx` path parses
as a workbook. -/
theorem claim_C7_witness :
    load_ipl_data
      (fun p => if p = "ipl_data.xlsx"
        then some ⟨Except.ok [cleanRow], Except.error ()⟩ else none)
      "ipl_data.xlsx" = Except.ok [cleanRow] := by
  have h := claim_C7
    (fun p => if p = "ipl_data.xlsx"
      then some ⟨Except.ok [cleanRow], Except.error ()⟩ else none)
    "ipl_data.xlsx"
  exact h.2.1 ⟨Except.ok [cleanRow], Except.error ()⟩ [cleanRow]
    (by simp) (by decide) rfl

/-- C6: embedding charts into a well-formed workbook (at most one `Charts`
sheet) ends with a `Charts` sheet present, creates one only when none
existed (sheet names otherwise unchanged, never replacing an existing
sheet), leaves every other sheet untouched, appends the chart images in
the mapping's iteration order after any existing images, and anchors the
i-th placed image at row `1 + 25 * i` — a fixed 25-row offset between
successive images. -/
theorem claim_C6 (wb : Workbook) (cp : List (String × String))
    (_hwf : (wb.sheets.filter (fun s => decide (s.name = "Charts"))).length ≤ 1) :
    hasSheet (embed_charts wb cp) "Charts" = true ∧
    (hasSheet wb "Charts" = true →
      (embed_charts wb cp).sheets.map Sheet.name = wb.sheets.map Sheet.name) ∧
    (hasSheet wb "Charts" = false →
      (embed_charts wb cp).sheets.map Sheet.name =
        wb.sheets.map Sheet.name ++ ["Charts"]) ∧
    (∀ m, m ≠ "Charts" →
      (embed_charts wb cp).sheets.filter (fun s => decide (s.name = m)) =
        wb.sheets.filter (fun s => decide (s.name = m))) ∧
    sheetImages (embed_charts wb cp) "Charts" =
      sheetImages wb "Charts" ++ expectedPlacements 1 cp ∧
    (∀ i, (expectedPlacements 1 cp)[i]? =
      (cp[i]?).map (fun lp => (lp.2, 1 + 25 * i))) := by
  by_cases hc : hasSheet wb "Charts" = true
  · have hwb1 : embed_charts wb cp = embedLoop wb 1 cp := by
      simp [embed_charts, hc]
    refine ⟨?_, ?_, ?_, ?_, ?_, ?_⟩
    · rw [hwb1, hasSheet_iff_mem_names, embedLoop_names,
        ← hasSheet_iff_mem_names]
      exact hc
    · intro _
      rw [hwb1, embedLoop_names]
    · intro hfalse
      rw [hc] at hfalse
      exact absurd hfalse (by simp)
    · intro m hm
      rw [hwb1, embedLoop_filter_ne _ _ _ _ hm]
    · rw [hwb1, embedLoop_images _ _ _ hc]
    · intro i
      exact expectedPlacements_getElem? cp 1 i
  · have hcf : hasSheet wb "Charts" = false := by
      cases h : hasSheet wb "Charts" with
      | false => rfl
      | true => exact absurd h hc
    have hwb1 : embed_charts wb cp = embedLoop (create_sheet wb "Charts") 1 cp := by
      simp [embed_charts, hcf]
    have hnames1 : (create_sheet wb "Charts").sheets.map Sheet.name =
        wb.sheets.map Sheet.name ++ ["Charts"] := by
      simp [create_sheet]
    have hhas1 : hasSheet (create_sheet wb "Charts") "Charts" = true := by
      rw [hasSheet_iff_mem_names, hnames1]
      simp
    have hnone : wb.sheets.find? (fun s => decide (s.name = "Charts")) = none := by
      rw [List.find?_eq_none]
      intro s hs
      simp only [decide_eq_true_eq]
      intro he
      have : hasSheet wb "Charts" = true := by
        rw [hasSheet_iff_mem_names]
        exact he ▸ List.mem_map_of_mem Sheet.name hs
      rw [this] at hcf
      exact absurd hcf (by simp)
    have himg0 : sheetImages wb "Charts" = [] := by
      simp [sheetImages, hnone]
    have himg1 : sheetImages (create_sheet wb "Charts") "Charts" = [] := by
      simp only [sheetImages, create_sheet, List.find?_append, hnone]
      simp [List.find?]
    refine ⟨?_, ?_, ?_, ?_, ?_, ?_⟩
    · rw [hwb1, hasSheet_iff_mem_names, embedLoop_names,
        ← hasSheet_iff_mem_names]
      exact hhas1
    · intro htrue
      rw [htrue] at hcf
      exact absurd hcf (by simp)
    · intro _
      rw [hwb1, embedLoop_names, hnames1]
    · intro m hm
      rw [hwb1, embedLoop_filter_ne _ _ _ _ hm]
      simp only [create_sheet, List.filter_append]
      have : ([(⟨"Charts", []⟩ : Sheet)].filter
          (fun s => decide (s.name = m))) = [] := by
        simp [List.filter, hm.symm]
      rw [this, List.append_nil]
    · rw [hwb1, embedLoop_images _ _ _ hhas1, himg1, himg0]
    · intro i
      exact expectedPlacements_getElem? cp 1 i

/-- Witness for C6: a workbook with only the three data sheets and the
four-chart mapping of `generate_charts`. -/
theorem claim_C6_witness :
    hasSheet
      (embed_charts
        ⟨[⟨"Top_Run_Scorers", []⟩, ⟨"Top_Wicket_Takers", []⟩, ⟨"Summary", []⟩]⟩
        [("runs", "charts/runs_dist.png"), ("wickets", "charts/wickets_dist.png"),
          ("team_runs", "charts/team_runs.png"),
          ("team_wickets", "charts/team_wickets.png")]) "Charts" = true ∧
    sheetImages
      (embed_charts
        ⟨[⟨"Top_Run_Scorers", []⟩, ⟨"Top_Wicket_Takers", []⟩, ⟨"Summary", []⟩]⟩
        [("runs", "charts/runs_dist.png"), ("wickets", "charts/wickets_dist.png"),
          ("team_runs", "charts/team_runs.png"),
          ("team_wickets", "charts/team_wickets.png")]) "Charts" =
      sheetImages
        ⟨[⟨"Top_Run_Scorers", []⟩, ⟨"Top_Wicket_Takers", []⟩, ⟨"Summary", []⟩]⟩
        "Charts" ++
        expectedPlacements 1
          [("runs", "charts/runs_dist.png"), ("wickets", "charts/wickets_dist.png"),
            ("team_runs", "charts/team_runs.png"),
            ("team_wickets", "charts/team_wickets.png")] := by
  have h := claim_C6
    ⟨[⟨"Top_Run_Scorers", []⟩, ⟨"Top_Wicket_Takers", []⟩, ⟨"Summary", []⟩]⟩
    [("runs", "charts/runs_dist.png"), ("wickets", "charts/wickets_dist.png"),
      ("team_runs", "charts/team_runs.png"),
      ("team_wickets", "charts/team_wickets.png")]
    (by decide)
  exact ⟨h.1, h.2.2.2.2.1⟩
